import Mathlib

/-!
# RoleRadar — verification of the storage layer, connectors and dashboard helpers

Shallow embedding of the RoleRadar sources:
* `src/storage/db.py`    — jobs/runs tables, `upsert_jobs`, `record_run`,
  `get_last_run`, `get_new_today`;
* `src/connectors/netflix.py` — `NetflixConnector.fetch_jobs` pagination loop,
  `_page_signature`, `_parse_job`, `_extract_location`, `_extract_raw_jobs`,
  `_extract_total`;
* `src/connectors/comsol.py`  — `_country_to_iso2`, `_normalize_heading_location`;
* `src/core/config.py`   — `load_profile`;
* `src/app.py`           — browse-view pagination (`max_page`, page clamp, slicing).

Python string semantics (truthiness of `""`/`None`, `str.strip`, `or`-chains)
are modelled explicitly by the `py*` helpers below.
-/

namespace RoleRadar

/-! ## Python string primitives -/

/-- Python whitespace class (`\s` of `re`, and the default `str.strip` set):
space, tab, newline, carriage return, form feed, vertical tab. -/
def pyIsWS (c : Char) : Bool :=
  c = ' ' || c = '\t' || c = '\n' || c = '\r' || c = '\x0c' || c = '\x0b'

/-- Python `str.strip()`: remove leading and trailing whitespace. -/
def pyStrip (s : String) : String :=
  ⟨(((s.toList.dropWhile pyIsWS).reverse.dropWhile pyIsWS).reverse : List Char)⟩

/-- `re.sub(r"\s+", " ", s)`: collapse every maximal whitespace run to one space.
The boolean argument records whether the previous character was whitespace. -/
def pyCollapseWSAux : Bool → List Char → List Char
  | _, [] => []
  | prevWS, c :: cs =>
    if pyIsWS c then
      if prevWS then pyCollapseWSAux true cs else ' ' :: pyCollapseWSAux true cs
    else c :: pyCollapseWSAux false cs

def pyCollapseWS (s : String) : String := ⟨pyCollapseWSAux false s.toList⟩

/-- `s.replace(".", "")`. -/
def pyRemoveDots (s : String) : String := ⟨s.toList.filter (· ≠ '.')⟩

/-- `s.casefold()` (ASCII case folding, as exercised by the sources). -/
def pyLower (s : String) : String := ⟨s.toList.map Char.toLower⟩

/-- `s.upper()` (ASCII). -/
def pyUpper (s : String) : String := ⟨s.toList.map Char.toUpper⟩

/-- Python truthiness of an optional string: `None` and `""` are falsy. -/
def pyTruthyS : Option String → Bool
  | none => false
  | some s => s ≠ ""

/-- Python `a or b` on optional strings: `b` whenever `a` is falsy
(`None` or `""`), keeping `b` as-is (it may itself be falsy). -/
def pyOrS (a b : Option String) : Option String :=
  if pyTruthyS a then a else b

/-- Python `chain or default` where `default` is a plain string:
the chain's value when truthy, else the default. -/
def pyOrSD (a : Option String) (d : String) : String :=
  match a with
  | some s => if s = "" then d else s
  | none => d

/-- `s.split(",")` on the character list: split at every comma, keeping
empty pieces (Python `str.split` with an explicit separator). -/
def pySplitCommasAux : List Char → List Char → List (List Char)
  | [], acc => [acc.reverse]
  | c :: cs, acc =>
    if c = ',' then acc.reverse :: pySplitCommasAux cs []
    else pySplitCommasAux cs (c :: acc)

def pySplitCommas (s : String) : List String :=
  (pySplitCommasAux s.toList []).map (fun l => ⟨l⟩)

/-- `sep.join(xs)`. -/
def pyJoin (sep : String) : List String → String
  | [] => ""
  | [x] => x
  | x :: xs => x ++ sep ++ pyJoin sep xs

/-! ## Storage layer (`src/storage/db.py`)

The `jobs` table is a list of rows keyed by `job_id`; the `runs` table a
list of rows keyed by `(run_date, company)`.  Dates/timestamps are the ISO
strings SQLite stores (`TEXT`), passed in explicitly (`date.today()` /
`datetime.now()` become parameters `today` / `now`). -/

/-- A row of the `jobs` table. `location` is `NULL`-able. -/
structure JobRow where
  job_id : String
  company : String
  title : String
  url : String
  location : Option String
  first_seen : String
  last_seen : String
deriving DecidableEq, Repr

/-- The `JobLike` protocol: what `upsert_jobs` reads off a connector Job. -/
structure StorJob where
  company : String
  job_id : String
  title : String
  url : String
  location : Option String
deriving DecidableEq, Repr

/-- `COALESCE(excluded.location, jobs.location)` of the upsert statement. -/
def coalesceLoc (incoming stored : Option String) : Option String :=
  match incoming with
  | some s => some s
  | none => stored

/-- One `INSERT ... ON CONFLICT(job_id) DO UPDATE` of `upsert_jobs`:
insert a fresh row with `first_seen = last_seen = today`, or update
`title`, `url`, `location` (COALESCE) and `last_seen` on the existing row. -/
def upsertOne (today : String) (db : List JobRow) (j : StorJob) : List JobRow :=
  if db.any (fun r => r.job_id = j.job_id) then
    db.map (fun r =>
      if r.job_id = j.job_id then
        { r with title := j.title, url := j.url,
                 location := coalesceLoc j.location r.location,
                 last_seen := today }
      else r)
  else
    db ++ [{ job_id := j.job_id, company := j.company, title := j.title,
             url := j.url, location := j.location,
             first_seen := today, last_seen := today }]

/-- `upsert_jobs(conn, jobs)`: the statement above for each job of the batch. -/
def upsert_jobs (today : String) (db : List JobRow) (jobs : List StorJob) :
    List JobRow :=
  jobs.foldl (upsertOne today) db

/-- A row of the `runs` table. -/
structure RunRow where
  run_date : String
  company : String
  ran_at : String
  total_jobs : Nat
  new_jobs : Nat
deriving DecidableEq, Repr

/-- `record_run(conn, company, total_jobs, new_jobs)`:
`INSERT ... ON CONFLICT(run_date, company) DO UPDATE` overwriting
`ran_at`, `total_jobs`, `new_jobs`. -/
def record_run (today now : String) (runs : List RunRow) (company : String)
    (total_jobs new_jobs : Nat) : List RunRow :=
  if runs.any (fun r => r.run_date = today ∧ r.company = company) then
    runs.map (fun r =>
      if r.run_date = today ∧ r.company = company then
        { r with ran_at := now, total_jobs := total_jobs, new_jobs := new_jobs }
      else r)
  else
    runs ++ [{ run_date := today, company := company, ran_at := now,
               total_jobs := total_jobs, new_jobs := new_jobs }]

/-- `SELECT ... WHERE company = ? ORDER BY run_date DESC LIMIT 1`:
the company's row with the maximal `run_date` (SQLite compares the ISO
`TEXT` dates bytewise), or `none`. -/
def get_last_run (runs : List RunRow) (company : String) : Option RunRow :=
  (runs.filter (fun r => r.company = company)).foldl
    (fun acc r =>
      match acc with
      | none => some r
      | some b => if b.run_date < r.run_date then some r else some b)
    none

/-- Ordering relation of `ORDER BY title` on the
`(title, url, first_seen, last_seen)` result tuples. -/
def titleLe (t u : String × String × String × String) : Prop := t.1 ≤ u.1

instance : DecidableRel titleLe := fun t u =>
  inferInstanceAs (Decidable (t.1 ≤ u.1))

instance : IsTotal (String × String × String × String) titleLe :=
  ⟨fun t u => le_total t.1 u.1⟩

instance : IsTrans (String × String × String × String) titleLe :=
  ⟨fun _ _ _ h h' => le_trans h h'⟩

/-- `get_new_today(conn, company)`: title/url/first_seen/last_seen of the
company's rows with `first_seen = today`, `ORDER BY title`. -/
def get_new_today (today : String) (db : List JobRow) (company : String) :
    List (String × String × String × String) :=
  ((db.filter (fun r => r.company = company ∧ r.first_seen = today)).map
    (fun r => (r.title, r.url, r.first_seen, r.last_seen))).insertionSort titleLe

/-! ## Profile configuration loader (`src/core/config.py`)

`load_profile` reads `profiles/<name>.yaml`.  The filesystem plus
`yaml.safe_load` outcome for that path is the explicit input: the file can
be missing, fail to parse (PyYAML raises on malformed input — `load_profile`
has no handler for it), or parse to a document.  A parsed document is `null`
(empty file), a mapping carrying the two recognized keys, or some other
value, for which only Python truthiness matters (`data or {}` turns a falsy
non-mapping into the empty mapping; a truthy non-mapping makes `data.get`
raise `AttributeError`). -/

/-- A parsed YAML document, as far as `load_profile` can observe it. -/
inductive YamlDoc where
  | null : YamlDoc
  | mapping (db_path : Option String) (enabled_companies : Option (List String)) : YamlDoc
  | other (truthy : Bool) : YamlDoc
deriving DecidableEq, Repr

/-- State of `profiles/<name>.yaml` when `load_profile` runs. -/
inductive ProfileFile where
  | missing : ProfileFile
  | malformed : ProfileFile
  | parsed (doc : YamlDoc) : ProfileFile
deriving DecidableEq, Repr

/-- The ways `load_profile` can raise. -/
inductive LoadError where
  | fileNotFound : LoadError
  | yamlError : LoadError
  | attributeError : LoadError
deriving DecidableEq, Repr

structure ProfileConfig where
  name : String
  db_path : String
  enabled_companies : List String
deriving DecidableEq, Repr

/-- The config with both defaults filled in. -/
def defaultConfig (name : String) : ProfileConfig :=
  { name := name, db_path := "data/" ++ name ++ ".sqlite", enabled_companies := [] }

/-- `load_profile(profile_name)`. -/
def load_profile (name : String) (file : ProfileFile) :
    Except LoadError ProfileConfig :=
  match file with
  | .missing => .error .fileNotFound
  | .malformed => .error .yamlError
  | .parsed .null => .ok (defaultConfig name)
  | .parsed (.other truthy) =>
      if truthy then .error .attributeError else .ok (defaultConfig name)
  | .parsed (.mapping dbp ec) =>
      .ok { name := name,
            db_path := dbp.getD ("data/" ++ name ++ ".sqlite"),
            enabled_companies := ec.getD [] }

/-! ## COMSOL connector (`src/connectors/comsol.py`)

Only the heading-location logic is claimed about.  The country table and the
heading splitter are embedded from the source; `normalize_location` lives in
`utils/location.py`, which is not among the sources, so it is modelled from
the spec (see below). -/

/-- `mapping.get(key)` of `_country_to_iso2` — the fixed dict, key by key. -/
def countryMapping (key : String) : Option String :=
  if key = "usa" then some "US"
  else if key = "us" then some "US"
  else if key = "united states" then some "US"
  else if key = "united states of america" then some "US"
  else if key = "united kingdom" then some "GB"
  else if key = "uk" then some "GB"
  else if key = "great britain" then some "GB"
  else if key = "china" then some "CN"
  else if key = "germany" then some "DE"
  else if key = "france" then some "FR"
  else if key = "italy" then some "IT"
  else if key = "finland" then some "FI"
  else if key = "sweden" then some "SE"
  else if key = "india" then some "IN"
  else none

/-- The lookup key `_country_to_iso2` builds: strip, collapse whitespace,
drop periods, casefold. -/
def countryKey (country_raw : String) : String :=
  pyLower (pyRemoveDots (pyCollapseWS (pyStrip country_raw)))

/-- `_country_to_iso2(country_raw)`: table lookup on the normalized key,
falling back to the trimmed upper-cased original (table values are all
truthy, so `mapping.get(key) or c.strip().upper()` is a plain default). -/
def country_to_iso2 (country_raw : String) : String :=
  match countryMapping (countryKey country_raw) with
  | some v => v
  | none => pyUpper (pyStrip country_raw)

/-- The comma split of `_normalize_heading_location`:
trimmed, non-empty parts. -/
def headingParts (heading : String) : List String :=
  ((pySplitCommas heading).map pyStrip).filter (· ≠ "")

/-- The `(country, state, city)` triple `_normalize_heading_location` passes
to `normalize_location`, or `none` when fewer than 2 parts. -/
def headingTriple (heading : String) : Option (String × String × String) :=
  match headingParts heading with
  | [] => none
  | [_] => none
  | [city, ctry] => some (country_to_iso2 ctry, "", city)
  | city :: state :: ctry :: _ => some (country_to_iso2 ctry, state, city)

/-- Modelled from the spec: `normalize_location(country, state, city)` is in
`utils/location.py`, which is not among the sources.  Per §4.1 it renders
"City, State" for US-style locations, "City, Country" otherwise, tolerating
an empty state, and is non-absent whenever the city is non-empty. -/
def normalize_location (country state city : String) : String :=
  if country = "US" ∧ state ≠ "" then city ++ ", " ++ state
  else if state ≠ "" then city ++ ", " ++ state ++ ", " ++ country
  else if country ≠ "" then city ++ ", " ++ country
  else city

/-- `_normalize_heading_location(heading)`. -/
def normalize_heading_location (heading : String) : Option String :=
  (headingTriple heading).map (fun t => normalize_location t.1 t.2.1 t.2.2)

/-! ## Dashboard browse-view pagination (`src/app.py`)

`max_page = max(1, (total - 1) // page_size + 1)`; the page number control
clamps its value to `[1, max_page]`; the shown slice is
`rows[(page-1)*page_size : (page-1)*page_size + page_size]`.  The branch
only runs on a non-empty result set (`if not rows: ... else:`), so `total ≥ 1`
and Nat subtraction agrees with Python's. -/

def max_page (total page_size : Nat) : Nat :=
  max 1 ((total - 1) / page_size + 1)

/-- The `[1, max_page]` clamp of the page-number control. -/
def clampPage (requested maxp : Nat) : Nat :=
  max 1 (min requested maxp)

/-- `rows[start:end]` with `start = (page-1)*page_size`, `end = start + page_size`. -/
def pageRows {α : Type} (rows : List α) (page page_size : Nat) : List α :=
  (rows.drop ((page - 1) * page_size)).take page_size

/-! ## Netflix connector (`src/connectors/netflix.py`)

A raw posting is a JSON object; the fields `_parse_job`, `_page_signature`
and `_extract_location` read are modelled explicitly. The location fields can
be a string, a list (of strings or objects), or an object; `none` is a
missing key.  `dictNonempty` records Python truthiness of a location object
(a dict is falsy exactly when it has no keys at all — it may carry keys other
than the ones read here). -/

/-- An element of a JSON list under a location field: a string, or an object
read through `name`/`label`/`location`/`city`. -/
inductive LocItem where
  | str (s : String) : LocItem
  | obj (name label location city : Option String) : LocItem
deriving DecidableEq, Repr

/-- A JSON value under one of the location fields. -/
inductive LocVal where
  | str (s : String) : LocVal
  | list (xs : List LocItem) : LocVal
  | obj (name label location : Option String) (dictNonempty : Bool) : LocVal
deriving DecidableEq, Repr

/-- Python truthiness of an optional location value: missing key, `""`,
`[]` and `{}` are falsy. -/
def pyTruthyL : Option LocVal → Bool
  | none => false
  | some (.str s) => s ≠ ""
  | some (.list xs) => xs ≠ []
  | some (.obj _ _ _ ne) => ne

/-- Python `a or b` over optional location values. -/
def pyOrL (a b : Option LocVal) : Option LocVal :=
  if pyTruthyL a then a else b

/-- A raw posting object, restricted to the fields the connector reads. -/
structure RawJob where
  id : Option String := none
  jobId : Option String := none
  positionId : Option String := none
  title : Option String := none
  name : Option String := none
  locations : Option LocVal := none
  location : Option LocVal := none
  jobLocation : Option LocVal := none
  locationName : Option LocVal := none
  canonicalPositionUrl : Option String := none
  url : Option String := none
  applyUrl : Option String := none
  description : Option String := none
  jobDescription : Option String := none
  descriptionText : Option String := none
deriving DecidableEq, Repr

/-- The normalized Job the Netflix connector produces (its local dataclass:
`location` is a plain string, never absent). -/
structure NJob where
  company : String
  job_id : String
  title : String
  location : String
  url : String
  description : Option String
deriving DecidableEq, Repr

/-- `raw.get("id") or raw.get("jobId") or raw.get("positionId")` —
the value `_parse_job` checks against `None`. -/
def nativeIdOf (r : RawJob) : Option String :=
  pyOrS r.id (pyOrS r.jobId r.positionId)

/-- The id entering a page signature:
`str(j.get("id") or j.get("jobId") or j.get("positionId") or "")`. -/
def sigIdOf (r : RawJob) : String :=
  pyOrSD (nativeIdOf r) ""

/-- `_page_signature(raw_jobs, n)`: the first `n` signature ids. -/
def page_signature (raw_jobs : List RawJob) (n : Nat) : List String :=
  (raw_jobs.take n).map sigIdOf

/-- `dict.fromkeys(parts)`: deduplicate keeping the first occurrence. -/
def dedupFirstAux (seen : List String) : List String → List String
  | [] => []
  | x :: xs =>
    if x ∈ seen then dedupFirstAux seen xs
    else x :: dedupFirstAux (x :: seen) xs

/-- The string appended for one list element of a location field. -/
def locItemText : LocItem → String
  | .str s => pyStrip s
  | .obj name label location city =>
      pyStrip (pyOrSD (pyOrS name (pyOrS label (pyOrS location city))) "")

/-- `_extract_location(raw)`: the `locations`/`location`/`jobLocation`/
`locationName` chain, then per-shape handling, with `"Unspecified"` as the
universal fallback. -/
def extract_location (r : RawJob) : String :=
  let loc := pyOrL r.locations (pyOrL r.location (pyOrL r.jobLocation r.locationName))
  match loc with
  | some (.str s) => if pyStrip s = "" then "Unspecified" else pyStrip s
  | some (.list xs) =>
      let parts := (xs.map locItemText).filter (· ≠ "")
      if parts = [] then "Unspecified"
      else pyJoin ", " (dedupFirstAux [] parts)
  | some (.obj name label location _) =>
      let s := pyStrip (pyOrSD (pyOrS name (pyOrS label location)) "")
      if s = "" then "Unspecified" else s
  | none => "Unspecified"

/-- `_parse_job(raw)`: drop the posting when the native-id chain is `None`
or the title chain strips to empty; otherwise build the Job. -/
def parse_job (r : RawJob) : Option NJob :=
  match nativeIdOf r with
  | none => none
  | some jid =>
    let jidStr := pyStrip jid
    let title := pyStrip ((pyOrS r.title r.name).getD "")
    if title = "" then none
    else some
      { company := "Netflix",
        job_id := "Netflix:" ++ jidStr,
        title := title,
        location := extract_location r,
        url := pyOrSD (pyOrS r.canonicalPositionUrl (pyOrS r.url r.applyUrl))
                 ("https://explore.jobs.netflix.net/jobs/" ++ jidStr),
        description := pyOrS r.description (pyOrS r.jobDescription r.descriptionText) }

/-- A page response body, restricted to the fields the connector reads.
The postings-array fields hold lists of objects (non-list / non-object
shapes are not exercised by these claims); an empty list is falsy for the
`or`-chain of `_extract_raw_jobs`. -/
structure ApiData where
  jobs : Option (List RawJob) := none
  positions : Option (List RawJob) := none
  results : Option (List RawJob) := none
  data : Option (List RawJob) := none
  count : Option Nat := none
  total : Option Nat := none
  totalCount : Option Nat := none
  total_count : Option Nat := none
deriving Repr

/-- Python truthiness of an optional list (missing key and `[]` falsy). -/
def pyTruthyList (a : Option (List RawJob)) : Bool :=
  match a with
  | none => false
  | some xs => xs ≠ []

/-- Python `a or b` over optional posting lists. -/
def pyOrList (a b : Option (List RawJob)) : Option (List RawJob) :=
  if pyTruthyList a then a else b

/-- `_extract_raw_jobs(data)`: first truthy of `jobs`/`positions`/
`results`/`data`, else `[]`. -/
def extract_raw_jobs (d : ApiData) : List RawJob :=
  (pyOrList d.jobs (pyOrList d.positions (pyOrList d.results d.data))).getD []

/-- `_extract_total(data)`: first present of `count`/`total`/`totalCount`/
`total_count` (an explicit `isinstance` check per key, not an `or`-chain). -/
def extract_total (d : ApiData) : Option Nat :=
  match d.count with
  | some v => some v
  | none =>
    match d.total with
    | some v => some v
    | none =>
      match d.totalCount with
      | some v => some v
      | none => d.total_count

/-- Why the `while True` loop of `fetch_jobs` stopped. -/
inductive StopReason where
  | maxPages : StopReason
  | emptyPage : StopReason
  | stuck : StopReason
  | reachedTotal : StopReason
deriving DecidableEq, Repr

/-- Outcome of the pagination loop: postings in arrival order, the
`(limit, start)` pairs of the page requests issued, and the stop reason. -/
structure FetchResult where
  postings : List NJob
  requests : List (Nat × Nat)
  stop : StopReason
deriving DecidableEq, Repr

/-- The `for raw in raw_jobs` body: parse, skip on `None` or a seen
`job_id`, else record the id and append the Job. -/
def addParsed : List RawJob → List String → List NJob → List String × List NJob
  | [], seen, acc => (seen, acc)
  | r :: rs, seen, acc =>
    match parse_job r with
    | none => addParsed rs seen acc
    | some j =>
      if j.job_id ∈ seen then addParsed rs seen acc
      else addParsed rs (j.job_id :: seen) (acc ++ [j])

/-- The `while True` loop of `fetch_jobs`, with the API as the explicit
function `api limit start`.  `fuel` is the number of pages still allowed
(`max_pages - page`), so fuel 0 is exactly the `page >= max_pages` break.
The loop checks the max-pages cap, fetches, re-reads the reported total
while still unknown, breaks on an empty page, updates the stuck-signature
counter and breaks after three consecutive repeats, parses and deduplicates,
advances `start` by the page's actual length, and breaks once the unique
postings reach the reported total. -/
def fetchLoop (api : Nat → Nat → ApiData) (page_size : Nat) :
    Nat → Nat → Option Nat → List String → Nat → Option (List String) →
    List NJob → List (Nat × Nat) → FetchResult
  | 0, _, _, _, _, _, postings, requests =>
      ⟨postings, requests, .maxPages⟩
  | fuel + 1, start, total, seen, repeatCnt, lastSig, postings, requests =>
    let data := api page_size start
    let requests := requests ++ [(page_size, start)]
    let raw_jobs := extract_raw_jobs data
    let total := match total with
      | none => extract_total data
      | some t => some t
    if raw_jobs = [] then ⟨postings, requests, .emptyPage⟩
    else
      let sig := page_signature raw_jobs (min 10 raw_jobs.length)
      let repeatCnt := if lastSig = some sig then repeatCnt + 1 else 0
      let lastSig := some sig
      if repeatCnt ≥ 3 then ⟨postings, requests, .stuck⟩
      else
        let (seen, postings) := addParsed raw_jobs seen postings
        let start := start + raw_jobs.length
        if (match total with
            | some t => decide (postings.length ≥ t)
            | none => false) then
          ⟨postings, requests, .reachedTotal⟩
        else
          fetchLoop api page_size fuel start total seen repeatCnt lastSig
            postings requests

/-- `j.location or ""` then `.lower()`, then substring tests — the
location post-filter.  `String.isSubstrOf`-style containment via the
`List.isInfix` of the character lists keeps it decidable. -/
def containsSub (hay needle : String) : Bool :=
  decide (needle.toList <:+: hay.toList)

/-- `_matches_any_keyword(job, keywords_lc)`: case-insensitive search of the
joined title/location/description haystack. -/
def matches_any_keyword (j : NJob) (keywords_lc : List String) : Bool :=
  let hay := pyLower (j.title ++ " " ++ j.location ++ " " ++ (j.description.getD ""))
  keywords_lc.any (fun k => containsSub hay k)

/-- The client-side filters applied after pagination. -/
def applyFilters (postings : List NJob) (keywords location_contains : List String) :
    List NJob :=
  let kw := (keywords.map (fun k => pyLower (pyStrip k))).filter (· ≠ "")
  let postings :=
    if keywords ≠ [] ∧ kw ≠ [] then
      postings.filter (fun j => matches_any_keyword j kw)
    else postings
  let loc_terms := (location_contains.map (fun t => pyLower (pyStrip t))).filter (· ≠ "")
  if location_contains ≠ [] ∧ loc_terms ≠ [] then
    postings.filter (fun j => loc_terms.any (fun t => containsSub (pyLower j.location) t))
  else postings

/-- `NetflixConnector.fetch_jobs(page_size, max_pages, keywords,
location_contains)` against an explicit API. -/
def fetch_jobs (api : Nat → Nat → ApiData) (page_size max_pages : Nat)
    (keywords location_contains : List String) : FetchResult :=
  let res := fetchLoop api page_size max_pages 0 none [] 0 none [] []
  { res with postings := applyFilters res.postings keywords location_contains }

/-! ## Observation helpers and shared lemmas -/

/-- `SELECT * FROM jobs WHERE job_id = k` (at most one row by primary key). -/
def findRow (db : List JobRow) (k : String) : Option JobRow :=
  db.find? (fun r => r.job_id = k)

/-- What `upsert_jobs` hands the storage layer for a Netflix Job: the
dataclass's `location` is a plain string, so the bound parameter is never
`NULL`. -/
def netflixToStor (j : NJob) : StorJob :=
  { company := j.company, job_id := j.job_id, title := j.title,
    url := j.url, location := some j.location }

lemma findRow_map_if (db : List JobRow) (k : String) (f : JobRow → JobRow)
    (hf : ∀ r, (f r).job_id = r.job_id) :
    findRow (db.map fun r => if r.job_id = k then f r else r) k
      = (findRow db k).map (fun r => if r.job_id = k then f r else r) := by
  induction db with
  | nil => rfl
  | cons a l ih =>
    by_cases h : a.job_id = k
    · simp [findRow, List.find?_cons, h, hf]
    · simp only [findRow] at ih
      simp [findRow, List.find?_cons, h, ih]

lemma upsertOne_of_absent (today : String) (db : List JobRow) (j : StorJob)
    (h : findRow db j.job_id = none) :
    upsertOne today db j =
      db ++ [{ job_id := j.job_id, company := j.company, title := j.title,
               url := j.url, location := j.location,
               first_seen := today, last_seen := today }] := by
  have hany : db.any (fun r => r.job_id = j.job_id) = false := by
    rw [List.any_eq_false]
    intro r hr
    have := List.find?_eq_none.mp h r hr
    simpa using this
  simp [upsertOne, hany]

lemma upsertOne_of_present (today : String) (db : List JobRow) (j : StorJob)
    (r : JobRow) (h : findRow db j.job_id = some r) :
    findRow (upsertOne today db j) j.job_id =
      some { r with title := j.title, url := j.url,
                    location := coalesceLoc j.location r.location,
                    last_seen := today } := by
  have hmem : r ∈ db := List.mem_of_find?_eq_some h
  have hkey : r.job_id = j.job_id := by
    have := List.find?_some h
    simpa using this
  have hany : db.any (fun r => r.job_id = j.job_id) = true := by
    rw [List.any_eq_true]
    exact ⟨r, hmem, by simpa using hkey⟩
  have hmap := findRow_map_if db j.job_id
    (fun r => { r with title := j.title, url := j.url,
                       location := coalesceLoc j.location r.location,
                       last_seen := today })
    (fun _ => rfl)
  simp only [upsertOne, hany, if_pos]
  rw [hmap, h]
  simp [hkey]

/-- C1. `upsert_jobs` processes each batch element with the single upsert
statement; its semantics per job: a previously unseen `job_id` is appended
as a fresh row with `first_seen = last_seen = today`; a present `job_id`
keeps its row but with `title`, `url` and `last_seen = today` replaced,
and `location` replaced only when the incoming location is non-absent — an
absent incoming location leaves a known stored location unchanged. -/
theorem upsert_jobs_semantics (today : String) (db : List JobRow) (j : StorJob) :
    upsert_jobs today db [j] = upsertOne today db j
    ∧ (findRow db j.job_id = none →
        upsertOne today db j =
          db ++ [{ job_id := j.job_id, company := j.company, title := j.title,
                   url := j.url, location := j.location,
                   first_seen := today, last_seen := today }])
    ∧ (∀ r, findRow db j.job_id = some r →
        findRow (upsertOne today db j) j.job_id =
          some { r with title := j.title, url := j.url,
                        location := coalesceLoc j.location r.location,
                        last_seen := today })
    ∧ (∀ r s, findRow db j.job_id = some r → j.location = some s →
        (findRow (upsertOne today db j) j.job_id).map JobRow.location
          = some (some s))
    ∧ (∀ r, findRow db j.job_id = some r → j.location = none →
        (findRow (upsertOne today db j) j.job_id).map JobRow.location
          = some r.location) := by
  refine ⟨rfl, upsertOne_of_absent today db j, upsertOne_of_present today db j,
    ?_, ?_⟩
  · intro r s hr hs
    rw [upsertOne_of_present today db j r hr, hs]
    rfl
  · intro r hr hs
    rw [upsertOne_of_present today db j r hr, hs]
    rfl

/-- C1 witness: a stored row with a known location keeps it when the
incoming location is absent, and a fresh `job_id` is appended with
`first_seen = last_seen = today`. -/
theorem upsert_jobs_semantics_witness :
    (findRow ([⟨"K:1", "K", "Old", "u0", some "Boston, MA", "D1", "D1"⟩])
        "K:1" = some ⟨"K:1", "K", "Old", "u0", some "Boston, MA", "D1", "D1"⟩)
    ∧ (findRow
        (upsertOne "D2" [⟨"K:1", "K", "Old", "u0", some "Boston, MA", "D1", "D1"⟩]
          ⟨"K", "K:1", "New", "u1", none⟩) "K:1").map JobRow.location
        = some (some "Boston, MA")
    ∧ upsertOne "D2" [] ⟨"K", "K:2", "T", "u", none⟩
        = [⟨"K:2", "K", "T", "u", none, "D2", "D2"⟩] := by
  refine ⟨by decide, ?_, ?_⟩
  · exact (upsert_jobs_semantics "D2"
      [⟨"K:1", "K", "Old", "u0", some "Boston, MA", "D1", "D1"⟩]
      ⟨"K", "K:1", "New", "u1", none⟩).2.2.2.2
      ⟨"K:1", "K", "Old", "u0", some "Boston, MA", "D1", "D1"⟩ (by decide) rfl
  · exact (upsert_jobs_semantics "D2" []
      ⟨"K", "K:2", "T", "u", none⟩).2.1 (by decide)

lemma coalesceLoc_self (l : Option String) : coalesceLoc l l = l := by
  cases l <;> rfl

lemma map_upsert_untouched (today : String) (j : StorJob) (db : List JobRow)
    (h : ∀ r ∈ db, r.job_id ≠ j.job_id) :
    db.map (fun r =>
      if r.job_id = j.job_id then
        { r with title := j.title, url := j.url,
                 location := coalesceLoc j.location r.location,
                 last_seen := today }
      else r) = db := by
  induction db with
  | nil => rfl
  | cons a l ih =>
    have ha : a.job_id ≠ j.job_id := h a (List.mem_cons_self a l)
    have ih' := ih (fun r hr => h r (List.mem_cons_of_mem a hr))
    simp [ha, ih']

/-- C4. Upserting the same Job twice on the same day is idempotent when the
`job_id` was not yet stored: the second upsert changes nothing, the table
holds exactly one row for that `job_id`, and that row has
`first_seen = last_seen = today`. -/
theorem upsert_idempotent_same_day (today : String) (db : List JobRow)
    (j : StorJob) (h : ∀ r ∈ db, r.job_id ≠ j.job_id) :
    upsert_jobs today (upsert_jobs today db [j]) [j] = upsert_jobs today db [j]
    ∧ ((upsert_jobs today (upsert_jobs today db [j]) [j]).filter
        (fun r => r.job_id = j.job_id)).length = 1
    ∧ (∀ r ∈ upsert_jobs today (upsert_jobs today db [j]) [j],
        r.job_id = j.job_id → r.first_seen = today ∧ r.last_seen = today) := by
  have habs : findRow db j.job_id = none := by
    rw [findRow, List.find?_eq_none]
    intro r hr
    simpa using h r hr
  have h1 : upsertOne today db j =
      db ++ [(⟨j.job_id, j.company, j.title, j.url, j.location,
               today, today⟩ : JobRow)] :=
    upsertOne_of_absent today db j habs
  have hany : (db ++ [(⟨j.job_id, j.company, j.title, j.url, j.location,
      today, today⟩ : JobRow)]).any
      (fun r => r.job_id = j.job_id) = true := by
    rw [List.any_eq_true]
    exact ⟨_, List.mem_append_right _ (List.mem_singleton.mpr rfl), by simp⟩
  have hmapdb := map_upsert_untouched today j db h
  have h2 : upsert_jobs today (upsert_jobs today db [j]) [j]
      = upsert_jobs today db [j] := by
    simp only [upsert_jobs, List.foldl_cons, List.foldl_nil]
    rw [h1]
    simp only [upsertOne, hany, if_pos, List.map_append, List.map_cons,
      List.map_nil, hmapdb]
    simp [coalesceLoc_self]
  refine ⟨h2, ?_, ?_⟩
  · rw [h2]
    simp only [upsert_jobs, List.foldl_cons, List.foldl_nil]
    rw [h1, List.filter_append]
    have hdb : db.filter (fun r => r.job_id = j.job_id) = [] := by
      rw [List.filter_eq_nil_iff]
      intro r hr
      simpa using h r hr
    simp [hdb]
  · intro r hr hkey
    rw [h2] at hr
    simp only [upsert_jobs, List.foldl_cons, List.foldl_nil] at hr
    rw [h1] at hr
    rcases List.mem_append.mp hr with hin | hin
    · exact absurd hkey (h r hin)
    · rw [List.mem_singleton.mp hin]
      exact ⟨rfl, rfl⟩

/-- C4 witness: one fresh job upserted twice on day `D1` into an empty
table — the second upsert is a no-op and the single row carries
`first_seen = last_seen = D1`. -/
theorem upsert_idempotent_same_day_witness :
    upsert_jobs "D1" (upsert_jobs "D1" [] [⟨"K", "K:9", "T", "u", none⟩])
        [⟨"K", "K:9", "T", "u", none⟩]
      = upsert_jobs "D1" [] [⟨"K", "K:9", "T", "u", none⟩]
    ∧ ((upsert_jobs "D1" (upsert_jobs "D1" [] [⟨"K", "K:9", "T", "u", none⟩])
        [⟨"K", "K:9", "T", "u", none⟩]).filter
          (fun r => r.job_id = "K:9")).length = 1 := by
  have h := upsert_idempotent_same_day "D1" [] ⟨"K", "K:9", "T", "u", none⟩
    (by intro r hr; cases hr)
  exact ⟨h.1, h.2.1⟩

/-- C5. `get_new_today` returns exactly the `(title, url, first_seen,
last_seen)` tuples of the company's rows whose `first_seen` is today, in
title-ascending order. -/
theorem get_new_today_spec (today : String) (db : List JobRow)
    (company : String) :
    (∀ t, t ∈ get_new_today today db company ↔
      ∃ r, r ∈ db ∧ r.company = company ∧ r.first_seen = today ∧
        t = (r.title, r.url, r.first_seen, r.last_seen))
    ∧ (get_new_today today db company).Sorted titleLe := by
  constructor
  · intro t
    simp only [get_new_today, List.mem_insertionSort, List.mem_map,
      List.mem_filter, decide_eq_true_eq]
    constructor
    · rintro ⟨r, ⟨hr, hc, hf⟩, ht⟩
      exact ⟨r, hr, hc, hf, ht.symm⟩
    · rintro ⟨r, hr, hc, hf, ht⟩
      exact ⟨r, ⟨hr, hc, hf⟩, ht.symm⟩
  · exact List.sorted_insertionSort titleLe _

/-- C5 witness: two day-`D2` rows and one day-`D1` row of company `C` — the
result is sorted by title and contains the `D2` tuple. -/
theorem get_new_today_spec_witness :
    (get_new_today "D2"
      [⟨"a", "C", "B", "u", none, "D2", "D2"⟩,
       ⟨"b", "C", "A", "u", none, "D2", "D2"⟩,
       ⟨"c", "C", "Z", "u", none, "D1", "D2"⟩] "C").Sorted titleLe
    ∧ (("A", "u", "D2", "D2") ∈ get_new_today "D2"
      [⟨"a", "C", "B", "u", none, "D2", "D2"⟩,
       ⟨"b", "C", "A", "u", none, "D2", "D2"⟩,
       ⟨"c", "C", "Z", "u", none, "D1", "D2"⟩] "C") := by
  have h := get_new_today_spec "D2"
    [⟨"a", "C", "B", "u", none, "D2", "D2"⟩,
     ⟨"b", "C", "A", "u", none, "D2", "D2"⟩,
     ⟨"c", "C", "Z", "u", none, "D1", "D2"⟩] "C"
  refine ⟨h.2, (h.1 ("A", "u", "D2", "D2")).mpr ?_⟩
  exact ⟨⟨"b", "C", "A", "u", none, "D2", "D2"⟩,
    by simp, rfl, rfl, rfl⟩

/-! ### Run bookkeeping -/

/-- The primary-key predicate of the `runs` table for `(today, company)`. -/
def runKey (today company : String) (r : RunRow) : Prop :=
  r.run_date = today ∧ r.company = company

instance (today company : String) : DecidablePred (runKey today company) :=
  fun r => inferInstanceAs (Decidable (r.run_date = today ∧ r.company = company))

lemma record_run_filter (today now : String) (runs : List RunRow)
    (c : String) (t n : Nat)
    (h : (runs.filter (fun r => r.run_date = today ∧ r.company = c)).length ≤ 1) :
    (record_run today now runs c t n).filter
      (fun r => r.run_date = today ∧ r.company = c)
      = [⟨today, c, now, t, n⟩] := by
  by_cases hany : runs.any (fun r => r.run_date = today ∧ r.company = c) = true
  · -- key already present: every matching row (there is exactly one) is
    -- overwritten in place
    have hmap : ∀ l : List RunRow,
        (l.map (fun r =>
          if r.run_date = today ∧ r.company = c then
            { r with ran_at := now, total_jobs := t, new_jobs := n }
          else r)).filter (fun r => r.run_date = today ∧ r.company = c)
        = (l.filter (fun r => r.run_date = today ∧ r.company = c)).map
            (fun _ => (⟨today, c, now, t, n⟩ : RunRow)) := by
      intro l
      rw [List.filter_map]
      have hcomp : ((fun r : RunRow => decide (r.run_date = today ∧ r.company = c)) ∘
          (fun r : RunRow =>
            if r.run_date = today ∧ r.company = c then
              { r with ran_at := now, total_jobs := t, new_jobs := n }
            else r))
          = (fun r : RunRow => decide (r.run_date = today ∧ r.company = c)) := by
        funext r
        by_cases hk : r.run_date = today ∧ r.company = c
        · simp only [Function.comp_apply, if_pos hk]
        · simp only [Function.comp_apply, if_neg hk]
      rw [hcomp]
      apply List.map_congr_left
      intro r hr
      have hk := (List.mem_filter.mp hr).2
      rw [decide_eq_true_eq] at hk
      obtain ⟨hk1, hk2⟩ := hk
      subst hk1
      subst hk2
      rw [if_pos (⟨rfl, rfl⟩ : r.run_date = r.run_date ∧ r.company = r.company)]
    have hne : runs.filter (fun r => r.run_date = today ∧ r.company = c) ≠ [] := by
      rw [List.any_eq_true] at hany
      obtain ⟨r, hr, hp⟩ := hany
      intro hnil
      have : r ∈ runs.filter (fun r => r.run_date = today ∧ r.company = c) :=
        List.mem_filter.mpr ⟨hr, hp⟩
      rw [hnil] at this
      cases this
    have hlen : (runs.filter (fun r => r.run_date = today ∧ r.company = c)).length = 1 := by
      have := List.length_pos.mpr hne
      omega
    obtain ⟨r0, hr0⟩ := List.length_eq_one.mp hlen
    simp only [record_run, hany, if_pos]
    rw [hmap runs, hr0]
    rfl
  · -- key absent: the fresh row is appended and is the only match
    have hfil : runs.filter (fun r => r.run_date = today ∧ r.company = c) = [] := by
      rw [List.filter_eq_nil_iff]
      intro r hr hp
      rw [List.any_eq_true] at hany
      exact hany ⟨r, hr, hp⟩
    simp only [record_run, hany, if_neg, Bool.not_eq_true, if_false]
    rw [List.filter_append, hfil]
    simp

lemma get_last_run_aux (l : List RunRow) (b : RunRow) :
    ∃ r, l.foldl (fun acc r =>
        match acc with
        | none => some r
        | some b => if b.run_date < r.run_date then some r else some b)
      (some b) = some r
      ∧ (r = b ∨ r ∈ l) ∧ b.run_date ≤ r.run_date
      ∧ ∀ r' ∈ l, r'.run_date ≤ r.run_date := by
  induction l generalizing b with
  | nil => exact ⟨b, rfl, Or.inl rfl, le_refl _, by intro r' h; cases h⟩
  | cons a l ih =>
    have hstep : List.foldl (fun acc r =>
        match acc with
        | none => some r
        | some b => if b.run_date < r.run_date then some r else some b)
        (some b) (a :: l)
        = List.foldl (fun acc r =>
        match acc with
        | none => some r
        | some b => if b.run_date < r.run_date then some r else some b)
        (if b.run_date < a.run_date then some a else some b) l := rfl
    by_cases hlt : b.run_date < a.run_date
    · obtain ⟨r, hfold, hmem, hle, hall⟩ := ih a
      refine ⟨r, ?_, ?_, le_of_lt (lt_of_lt_of_le hlt hle), ?_⟩
      · rw [hstep, if_pos hlt]
        exact hfold
      · rcases hmem with h | h
        · exact Or.inr (h ▸ List.mem_cons_self a l)
        · exact Or.inr (List.mem_cons_of_mem a h)
      · intro r' hr'
        rcases List.mem_cons.mp hr' with h | h
        · exact h ▸ hle
        · exact hall r' h
    · obtain ⟨r, hfold, hmem, hle, hall⟩ := ih b
      refine ⟨r, ?_, ?_, hle, ?_⟩
      · rw [hstep, if_neg hlt]
        exact hfold
      · rcases hmem with h | h
        · exact Or.inl h
        · exact Or.inr (List.mem_cons_of_mem a h)
      · intro r' hr'
        rcases List.mem_cons.mp hr' with h | h
        · exact h ▸ le_trans (le_of_not_lt hlt) hle
        · exact hall r' h

/-- C6. Re-recording a run for the same company on the same date overwrites
`ran_at`/`total_jobs`/`new_jobs` in the single `(run_date, company)` row
instead of adding one; `get_last_run` yields the company's row of maximal
`run_date` (most recent ISO date), and nothing exactly when the company has
no runs. -/
theorem record_run_overwrite_and_last_run (today now1 now2 : String)
    (runs : List RunRow) (c : String) (t1 n1 t2 n2 : Nat)
    (hkey : (runs.filter (fun r => r.run_date = today ∧ r.company = c)).length ≤ 1) :
    ((record_run today now2 (record_run today now1 runs c t1 n1) c t2 n2).filter
        (fun r => r.run_date = today ∧ r.company = c))
      = [⟨today, c, now2, t2, n2⟩]
    ∧ (get_last_run runs c = none ↔ ∀ r ∈ runs, r.company ≠ c)
    ∧ (∀ r, get_last_run runs c = some r →
        r ∈ runs ∧ r.company = c ∧
        ∀ r' ∈ runs, r'.company = c → r'.run_date ≤ r.run_date) := by
  refine ⟨?_, ?_, ?_⟩
  · have h1 := record_run_filter today now1 runs c t1 n1 hkey
    have h2 := record_run_filter today now2 (record_run today now1 runs c t1 n1)
      c t2 n2 (by rw [h1]; exact le_refl 1)
    exact h2
  · constructor
    · intro hnone r hr hc
      have hmem : r ∈ runs.filter (fun r => r.company = c) :=
        List.mem_filter.mpr ⟨hr, by simpa using hc⟩
      cases hfil : runs.filter (fun r => r.company = c) with
      | nil => rw [hfil] at hmem; cases hmem
      | cons a l =>
        obtain ⟨m, hm, _, _, _⟩ := get_last_run_aux l a
        rw [get_last_run, hfil] at hnone
        simp only [List.foldl_cons] at hnone
        rw [hm] at hnone
        cases hnone
    · intro hall
      have hfil : runs.filter (fun r => r.company = c) = [] := by
        rw [List.filter_eq_nil_iff]
        intro r hr
        simpa using hall r hr
      rw [get_last_run, hfil]
      rfl
  · intro r hr
    cases hfil : runs.filter (fun r => r.company = c) with
    | nil =>
      rw [get_last_run, hfil] at hr
      cases hr
    | cons a l =>
      obtain ⟨m, hm, hmem, hle, hallm⟩ := get_last_run_aux l a
      rw [get_last_run, hfil] at hr
      simp only [List.foldl_cons] at hr
      rw [hm] at hr
      injection hr with hmr
      subst hmr
      have hminfil : m ∈ runs.filter (fun r => r.company = c) := by
        rw [hfil]
        rcases hmem with h | h
        · exact h ▸ List.mem_cons_self a l
        · exact List.mem_cons_of_mem a h
      have hmf := List.mem_filter.mp hminfil
      refine ⟨hmf.1, by simpa using hmf.2, ?_⟩
      intro r' hr' hc'
      have : r' ∈ runs.filter (fun r => r.company = c) :=
        List.mem_filter.mpr ⟨hr', by simpa using hc'⟩
      rw [hfil] at this
      rcases List.mem_cons.mp this with h | h
      · exact h ▸ hle
      · exact hallm r' h

/-- C6 witness: a second `record_run` for company `C` on day `D2` overwrites
the day's row, and `get_last_run` picks the `D2` record over the `D1` one. -/
theorem record_run_overwrite_and_last_run_witness :
    ((record_run "D2" "ts2" (record_run "D2" "ts1"
        [⟨"D1", "C", "ts0", 5, 5⟩] "C" 7 2) "C" 9 3).filter
        (fun r => r.run_date = "D2" ∧ r.company = "C"))
      = [⟨"D2", "C", "ts2", 9, 3⟩]
    ∧ (∀ r, get_last_run [⟨"D1", "C", "ts0", 5, 5⟩] "C" = some r →
        r ∈ [(⟨"D1", "C", "ts0", 5, 5⟩ : RunRow)] ∧ r.company = "C" ∧
        ∀ r' ∈ [(⟨"D1", "C", "ts0", 5, 5⟩ : RunRow)], r'.company = "C" →
          r'.run_date ≤ r.run_date) := by
  have h := record_run_overwrite_and_last_run "D2" "ts1" "ts2"
    [⟨"D1", "C", "ts0", 5, 5⟩] "C" 7 2 9 3 (by decide)
  exact ⟨h.1, h.2.2⟩

/-! ### Profile loader -/

/-- C8 counterexample: a malformed `profiles/yt.yaml` does NOT degrade to the
all-defaults config — `yaml.safe_load` raises and `load_profile` has no
handler, so the call fails with a YAML parse error. -/
theorem load_profile_malformed_counterexample :
    load_profile "yt" ProfileFile.malformed = Except.error LoadError.yamlError
    ∧ load_profile "yt" ProfileFile.malformed ≠ Except.ok (defaultConfig "yt") := by
  exact ⟨rfl, fun h => Except.noConfusion h⟩

/-- C8 (amended). `load_profile` fails with the configuration-not-found
condition exactly when the profile file is missing; an existing file that
parses as a mapping gets defaults for absent keys (`db_path`:
`data/<name>.sqlite`, `enabled_companies`: `[]`); an empty (null-parsing)
document degrades to the empty mapping with all defaults; a malformed
document propagates a YAML parse error instead of degrading. -/
theorem load_profile_spec (name : String) (file : ProfileFile) :
    (load_profile name file = .error .fileNotFound ↔ file = .missing)
    ∧ (∀ dbp ec, file = .parsed (.mapping dbp ec) →
        load_profile name file =
          .ok ⟨name, dbp.getD ("data/" ++ name ++ ".sqlite"), ec.getD []⟩)
    ∧ (file = .parsed .null → load_profile name file = .ok (defaultConfig name))
    ∧ (file = .malformed → load_profile name file = .error .yamlError) := by
  refine ⟨?_, ?_, ?_, ?_⟩
  · constructor
    · intro h
      cases file with
      | missing => rfl
      | malformed => simp [load_profile] at h
      | parsed doc =>
        cases doc with
        | null => simp [load_profile] at h
        | mapping dbp ec => simp [load_profile] at h
        | other truthy =>
          by_cases ht : truthy = true
          · subst ht; simp [load_profile] at h
          · rw [Bool.not_eq_true] at ht
            subst ht; simp [load_profile] at h
    · intro h
      subst h
      rfl
  · intro dbp ec h
    subst h
    rfl
  · intro h
    subst h
    rfl
  · intro h
    subst h
    rfl

/-- C8 witness: the parts of the amended statement at concrete inputs —
a missing file is exactly the configuration-not-found case, a mapping with
only `db_path` keeps its value and defaults `enabled_companies`, and a null
document yields the all-defaults config. -/
theorem load_profile_spec_witness :
    (load_profile "yt" ProfileFile.missing = .error .fileNotFound ↔
      ProfileFile.missing = ProfileFile.missing)
    ∧ load_profile "yt" (ProfileFile.parsed (.mapping (some "custom.db") none)) =
        .ok ⟨"yt", "custom.db", []⟩
    ∧ load_profile "bz" (ProfileFile.parsed .null) = .ok (defaultConfig "bz") := by
  refine ⟨(load_profile_spec "yt" ProfileFile.missing).1, ?_, ?_⟩
  · exact (load_profile_spec "yt"
      (ProfileFile.parsed (.mapping (some "custom.db") none))).2.1
      (some "custom.db") none rfl
  · exact (load_profile_spec "bz" (ProfileFile.parsed .null)).2.2.1 rfl

/-! ### Browse-view pagination -/

/-- C9. For a non-empty result set, `max_page` equals
`max 1 ⌈total / page_size⌉` (Nat ceiling `(total + page_size - 1) / page_size`),
the page control clamps any request into `[1, max_page]`, and concretely for
120 rows at page size 50: `max_page = 3`, a request for page 5 clamps to 3,
and page 3 shows rows 101–120 (the final 20). -/
theorem pagination_clamp (total page_size : Nat) (ht : 1 ≤ total)
    (hp : 1 ≤ page_size) {α : Type} (rows : List α) (hrows : rows.length = 120) :
    max_page total page_size = max 1 ((total + page_size - 1) / page_size)
    ∧ (∀ requested, 1 ≤ clampPage requested (max_page total page_size) ∧
        clampPage requested (max_page total page_size) ≤ max_page total page_size)
    ∧ max_page 120 50 = 3
    ∧ clampPage 5 (max_page 120 50) = 3
    ∧ pageRows rows (clampPage 5 (max_page 120 50)) 50 = rows.drop 100
    ∧ (pageRows rows (clampPage 5 (max_page 120 50)) 50).length = 20 := by
  have hceil : (total - 1) / page_size + 1 = (total + page_size - 1) / page_size := by
    have h1 : total + page_size - 1 = (total - 1) + page_size := by omega
    rw [h1, Nat.add_div_right _ (by omega : 0 < page_size)]
  have hmp1 : 1 ≤ max_page total page_size := le_max_left 1 _
  refine ⟨?_, ?_, by decide, by decide, ?_, ?_⟩
  · rw [max_page, hceil]
  · intro requested
    exact ⟨le_max_left 1 _, max_le hmp1 (min_le_right requested _)⟩
  · show (rows.drop ((3 - 1) * 50)).take 50 = rows.drop 100
    apply List.take_of_length_le
    rw [List.length_drop, hrows]
    omega
  · show ((rows.drop ((3 - 1) * 50)).take 50).length = 20
    rw [List.length_take, List.length_drop, hrows]
    omega

/-- C9 witness: the pagination facts instantiated at a concrete 120-row
result set. -/
theorem pagination_clamp_witness :
    max_page 120 50 = max 1 ((120 + 50 - 1) / 50)
    ∧ clampPage 5 (max_page 120 50) = 3
    ∧ pageRows (List.range 120) (clampPage 5 (max_page 120 50)) 50
        = (List.range 120).drop 100 := by
  have h := pagination_clamp 120 50 (by decide) (by decide)
    (List.range 120) (by simp)
  exact ⟨h.1, h.2.2.2.1, h.2.2.2.2.1⟩

/-! ### COMSOL heading locations -/

lemma country_to_iso2_of_key (s v : String)
    (h : countryMapping (countryKey s) = some v) : country_to_iso2 s = v := by
  simp [country_to_iso2, h]

lemma country_to_iso2_of_unmapped (s : String)
    (h : countryMapping (countryKey s) = none) :
    country_to_iso2 s = pyUpper (pyStrip s) := by
  simp [country_to_iso2, h]

/-- C7. The heading-location parser: the heading splits on commas into
trimmed non-empty parts; fewer than 2 parts gives an absent location;
exactly 2 parts feed `(city, country→ISO2, no state)` to the location
normalizer; 3 or more parts feed `(city, state, country→ISO2)` with extra
parts ignored.  The country mapping matches the fixed table on the case-
and punctuation-insensitive key and falls back to the trimmed upper-cased
original for unmapped names. -/
theorem comsol_heading_location_spec (heading s : String) :
    (normalize_heading_location heading =
      (headingTriple heading).map (fun t => normalize_location t.1 t.2.1 t.2.2))
    ∧ ((headingParts heading).length < 2 → normalize_heading_location heading = none)
    ∧ (∀ city ctry, headingParts heading = [city, ctry] →
        headingTriple heading = some (country_to_iso2 ctry, "", city))
    ∧ (∀ city state ctry rest,
        headingParts heading = city :: state :: ctry :: rest →
        headingTriple heading = some (country_to_iso2 ctry, state, city))
    ∧ (countryKey s ∈ (["usa", "us", "united states",
          "united states of america"] : List String) → country_to_iso2 s = "US")
    ∧ (countryKey s ∈ (["united kingdom", "uk", "great britain"] : List String) →
        country_to_iso2 s = "GB")
    ∧ (countryKey s = "china" → country_to_iso2 s = "CN")
    ∧ (countryKey s = "germany" → country_to_iso2 s = "DE")
    ∧ (countryKey s = "france" → country_to_iso2 s = "FR")
    ∧ (countryKey s = "italy" → country_to_iso2 s = "IT")
    ∧ (countryKey s = "finland" → country_to_iso2 s = "FI")
    ∧ (countryKey s = "sweden" → country_to_iso2 s = "SE")
    ∧ (countryKey s = "india" → country_to_iso2 s = "IN")
    ∧ (countryMapping (countryKey s) = none →
        country_to_iso2 s = pyUpper (pyStrip s)) := by
  refine ⟨rfl, ?_, ?_, ?_, ?_, ?_, ?_, ?_, ?_, ?_, ?_, ?_, ?_, ?_⟩
  · intro hlen
    cases hp : headingParts heading with
    | nil => simp [normalize_heading_location, headingTriple, hp]
    | cons a tl =>
      cases tl with
      | nil => simp [normalize_heading_location, headingTriple, hp]
      | cons b tl2 =>
        rw [hp] at hlen
        simp only [List.length_cons] at hlen
        omega
  · intro city ctry hp
    simp [headingTriple, hp]
  · intro city state ctry rest hp
    simp [headingTriple, hp]
  · intro hmem
    simp only [List.mem_cons, List.not_mem_nil, or_false] at hmem
    rcases hmem with h | h | h | h <;>
      exact country_to_iso2_of_key s "US" (by rw [h]; rfl)
  · intro hmem
    simp only [List.mem_cons, List.not_mem_nil, or_false] at hmem
    rcases hmem with h | h | h <;>
      exact country_to_iso2_of_key s "GB" (by rw [h]; rfl)
  · intro h
    exact country_to_iso2_of_key s "CN" (by rw [h]; rfl)
  · intro h
    exact country_to_iso2_of_key s "DE" (by rw [h]; rfl)
  · intro h
    exact country_to_iso2_of_key s "FR" (by rw [h]; rfl)
  · intro h
    exact country_to_iso2_of_key s "IT" (by rw [h]; rfl)
  · intro h
    exact country_to_iso2_of_key s "FI" (by rw [h]; rfl)
  · intro h
    exact country_to_iso2_of_key s "SE" (by rw [h]; rfl)
  · intro h
    exact country_to_iso2_of_key s "IN" (by rw [h]; rfl)
  · intro h
    exact country_to_iso2_of_unmapped s h

/-- C7 witness: `"Burlington, MA, USA"` derives city/state/country
`(US, MA, Burlington)`; `"Beijing, China"` derives `(CN, no state,
Beijing)`; a single comma-less token has no location; an unmapped country
name upper-cases the trimmed raw text. -/
theorem comsol_heading_location_spec_witness :
    headingTriple "Burlington, MA, USA" = some ("US", "MA", "Burlington")
    ∧ headingTriple "Beijing, China" = some ("CN", "", "Beijing")
    ∧ normalize_heading_location "Stockholm" = none
    ∧ country_to_iso2 " Nederland " = "NEDERLAND" := by
  have h1 := (comsol_heading_location_spec "Burlington, MA, USA" "USA").2.2.2.1
    "Burlington" "MA" "USA" [] (by decide)
  have h2 := (comsol_heading_location_spec "Beijing, China" "China").2.2.1
    "Beijing" "China" (by decide)
  have h3 := (comsol_heading_location_spec "Stockholm" "x").2.1 (by decide)
  have h4 := (comsol_heading_location_spec "x" " Nederland ").2.2.2.2.2.2.2.2.2.2.2.2.2
    (by decide)
  refine ⟨?_, ?_, h3, h4.trans (by decide)⟩
  · rw [h1]
    have hus : country_to_iso2 "USA" = "US" :=
      (comsol_heading_location_spec "x" "USA").2.2.2.2.1 (by decide)
    rw [hus]
  · rw [h2]
    have hcn : country_to_iso2 "China" = "CN" :=
      (comsol_heading_location_spec "x" "China").2.2.2.2.2.2.1 (by decide)
    rw [hcn]

/-! ### Netflix pagination -/

/-- A simulated raw posting with native id and title derived from an index. -/
def mkSimRaw (i : Nat) : RawJob :=
  { id := some (toString i), title := some ("Role " ++ toString i) }

/-- Simulated API for the pagination-advance scenario: 25 distinct records in
total, every call returns at most 10 of them from `start` onward regardless
of the requested `limit`, and the response reports `count = 25`. -/
def simApiPaged : Nat → Nat → ApiData := fun _limit start =>
  { jobs := some ((((List.range 25).drop start).take 10).map mkSimRaw),
    count := some 25 }

/-- Simulated API for the stuck-pagination scenario: the identical 10
records on every call, whatever `start` is requested; no reported total. -/
def simApiStuck : Nat → Nat → ApiData := fun _ _ =>
  { jobs := some ((List.range 10).map mkSimRaw) }

/-- C2. Against an API that returns only 10 records per call despite
`limit = 100`, with 25 records in total, `fetch_jobs` advances `start` by the
actual page length: it issues exactly three requests with `start` 0, 10, 20
(each with `limit = 100`), stops at the reported total, and returns the 25
deduplicated jobs. -/
theorem netflix_pagination_advance :
    (fetch_jobs simApiPaged 100 800 [] []).requests = [(100, 0), (100, 10), (100, 20)]
    ∧ (fetch_jobs simApiPaged 100 800 [] []).postings.length = 25
    ∧ ((fetch_jobs simApiPaged 100 800 [] []).postings.map (fun j => j.job_id)).Nodup
    ∧ (fetch_jobs simApiPaged 100 800 [] []).stop = StopReason.reachedTotal := by
  decide

/-- C3. `_page_signature` is the list of the first (up to) 10 native ids of
the page, and against an API returning the identical signature on every
call, `fetch_jobs` stops after the third consecutive repeat: exactly 4 page
fetches in total (far below `max_pages = 800`), a soft stop with the 10 jobs
collected so far. -/
theorem netflix_stuck_guard :
    (∀ raw_jobs : List RawJob,
      page_signature raw_jobs (min 10 raw_jobs.length) = (raw_jobs.take 10).map sigIdOf)
    ∧ (fetch_jobs simApiStuck 100 800 [] []).requests
        = [(100, 0), (100, 10), (100, 20), (100, 30)]
    ∧ (fetch_jobs simApiStuck 100 800 [] []).requests.length = 4
    ∧ (fetch_jobs simApiStuck 100 800 [] []).stop = StopReason.stuck
    ∧ ((fetch_jobs simApiStuck 100 800 [] []).postings.map (fun j => j.job_id))
        = (List.range 10).map (fun i => "Netflix:" ++ toString i) := by
  refine ⟨?_, by decide, by decide, by decide, by decide⟩
  intro raw_jobs
  rw [page_signature]
  congr 1
  rw [List.take_eq_take, min_assoc, min_self]

/-! ### Netflix Job invariants -/

lemma string_length_pos_of_ne (s : String) (h : s ≠ "") : 0 < s.length := by
  cases s with
  | mk data =>
    cases data with
    | nil => exact absurd rfl h
    | cons c cs => simp [String.length]

lemma pyJoin_cons_ne (p : String) (rest : List String) (hp : p ≠ "") :
    pyJoin ", " (p :: rest) ≠ "" := by
  cases rest with
  | nil => simpa [pyJoin] using hp
  | cons q qs =>
    have h1 : 0 < (pyJoin ", " (p :: q :: qs)).length := by
      show 0 < (p ++ ", " ++ pyJoin ", " (q :: qs)).length
      rw [String.length_append, String.length_append]
      have := string_length_pos_of_ne p hp
      omega
    intro hc
    rw [hc] at h1
    exact (by decide : ¬ (0 < ("" : String).length)) h1

lemma filtered_join_ne (l : List String)
    (h : ¬ (l.filter (fun x => x ≠ "") = [])) :
    pyJoin ", " (dedupFirstAux [] (l.filter (fun x => x ≠ ""))) ≠ "" := by
  cases hp : l.filter (fun x => x ≠ "") with
  | nil => exact absurd hp h
  | cons p rest =>
    have hpmem : p ∈ l.filter (fun x => x ≠ "") := by
      rw [hp]
      exact List.mem_cons_self p rest
    have hpne : p ≠ "" := by
      have := (List.mem_filter.mp hpmem).2
      simpa using this
    have hd : dedupFirstAux [] (p :: rest) = p :: dedupFirstAux [p] rest := by
      rw [dedupFirstAux]
      simp
    rw [hd]
    exact pyJoin_cons_ne p _ hpne

lemma extract_location_ne_empty (r : RawJob) : extract_location r ≠ "" := by
  rw [extract_location]
  split
  · -- string shape
    split
    · decide
    · assumption
  · -- list shape
    dsimp only
    split
    · decide
    · rename_i xs heq hne
      exact filtered_join_ne (xs.map locItemText) hne
  · -- object shape
    dsimp only
    split
    · decide
    · assumption
  · -- nothing usable
    decide

/-- C10. Every Job `_parse_job` accepts has a non-empty title, the job id
`"Netflix:" ++ <stripped native id>` with the native id present in the raw
posting, and a location that is exactly `_extract_location`'s value, which
is never empty (at worst `"Unspecified"`); raw postings whose native-id
chain is absent, or whose title strips to blank, are dropped; and because a
Netflix Job always reaches storage with a non-NULL location, `upsert_jobs`
always overwrites the stored location — a previously known location
included. -/
theorem netflix_job_invariants :
    (∀ r j, parse_job r = some j →
      j.title ≠ "" ∧ j.location ≠ "" ∧ j.company = "Netflix" ∧
      (∃ nid, nativeIdOf r = some nid ∧ j.job_id = "Netflix:" ++ pyStrip nid) ∧
      j.location = extract_location r)
    ∧ (∀ r, extract_location r ≠ "")
    ∧ (∀ r, nativeIdOf r = none → parse_job r = none)
    ∧ (∀ r, pyStrip ((pyOrS r.title r.name).getD "") = "" → parse_job r = none)
    ∧ (∀ today db (j : NJob) r0,
        findRow db j.job_id = some r0 →
        findRow (upsertOne today db (netflixToStor j)) j.job_id =
          some { r0 with title := j.title, url := j.url,
                         location := some j.location, last_seen := today }) := by
  refine ⟨?_, extract_location_ne_empty, ?_, ?_, ?_⟩
  · intro r j h
    rw [parse_job] at h
    cases hn : nativeIdOf r with
    | none =>
      rw [hn] at h
      exact Option.noConfusion h
    | some jid =>
      rw [hn] at h
      dsimp only at h
      by_cases ht : pyStrip ((pyOrS r.title r.name).getD "") = ""
      · rw [if_pos ht] at h
        exact Option.noConfusion h
      · rw [if_neg ht] at h
        injection h with h
        subst h
        exact ⟨ht, extract_location_ne_empty r, rfl, ⟨jid, rfl, rfl⟩, rfl⟩
  · intro r hn
    rw [parse_job, hn]
  · intro r ht
    rw [parse_job]
    cases hn : nativeIdOf r with
    | none => rfl
    | some jid =>
      dsimp only
      rw [if_pos ht]
  · intro today db j r0 h
    exact upsertOne_of_present today db (netflixToStor j) r0 h

/-- Concrete raw posting and its parse, for the C10 witness. -/
def nfRawEx : RawJob :=
  { id := some "123", title := some " Engineer ",
    locations := some (LocVal.str " Los Gatos, CA ") }

def nfJobEx : NJob :=
  ⟨"Netflix", "Netflix:123", "Engineer", "Los Gatos, CA",
   "https://explore.jobs.netflix.net/jobs/123", none⟩

/-- C10 witness: the invariants at a concrete posting, a concrete empty raw
object (dropped), and a concrete upsert where `"Unspecified"`-style string
locations overwrite a previously known stored location. -/
theorem netflix_job_invariants_witness :
    nfJobEx.title ≠ ""
    ∧ nfJobEx.location ≠ ""
    ∧ (∃ nid, nativeIdOf nfRawEx = some nid ∧
        nfJobEx.job_id = "Netflix:" ++ pyStrip nid)
    ∧ extract_location {} ≠ ""
    ∧ parse_job {} = none
    ∧ findRow (upsertOne "D2"
        [⟨"Netflix:7", "Netflix", "Old", "u", some "Paris, FR", "D1", "D1"⟩]
        (netflixToStor ⟨"Netflix", "Netflix:7", "T", "Unspecified", "u2", none⟩))
        "Netflix:7"
      = some ⟨"Netflix:7", "Netflix", "T", "u2", some "Unspecified", "D1", "D2"⟩ := by
  have h1 := netflix_job_invariants.1 nfRawEx nfJobEx (by decide)
  have h2 := netflix_job_invariants.2.1 ({} : RawJob)
  have h3 := netflix_job_invariants.2.2.1 ({} : RawJob) rfl
  have h5 := netflix_job_invariants.2.2.2.2 "D2"
    [⟨"Netflix:7", "Netflix", "Old", "u", some "Paris, FR", "D1", "D1"⟩]
    ⟨"Netflix", "Netflix:7", "T", "Unspecified", "u2", none⟩
    ⟨"Netflix:7", "Netflix", "Old", "u", some "Paris, FR", "D1", "D1"⟩
    (by decide)
  exact ⟨h1.1, h1.2.1, h1.2.2.2.1, h2, h3, h5⟩

end RoleRadar
